import Mathlib

/-!
Shallow embedding of `pandas/core/window_/indexers.py` (window bound
computation for rolling aggregations) and verification of its specification.

The source computes, for each output position `i`, a half-open slice
`[start[i], end[i])` of the observation sequence.  Two strategies exist:
`FixedWindowIndexer` (constant-count trailing window, pure numpy arithmetic)
and `VariableWindowIndexer` (value-indexed window over a monotone ordering
key, a two-pointer scan).  numpy `int64` values are modelled as `Int`;
sequence lengths and positions as `Nat`.
-/

namespace Indexers

/-- Embedding of `FixedWindowIndexer.get_window_bounds`.  The source uses `values` only
through `num_values = len(values)`, so the embedding takes the length
directly.  `window_size` is non-negative (`np.zeros(window_size)` would raise
for a negative size).

```
start_s = np.zeros(window_size, dtype=np.int64)
start_e = np.arange(window_size, num_values, dtype=np.int64) - window_size + 1
start = np.concatenate([start_s, start_e])
end_s = np.arange(window_size, dtype=np.int64) + 1
end_e = start_e + window_size
end = np.concatenate([end_s, end_e])
return start, end
``` -/
def FixedWindowIndexer.get_window_bounds (num_values window_size : Nat) :
    List Int × List Int :=
  let start_s : List Int := List.replicate window_size 0
  let start_e : List Int :=
    (List.range' window_size (num_values - window_size)).map
      (fun (i : Nat) => (i : Int) - (window_size : Int) + 1)
  let start := start_s ++ start_e
  let end_s : List Int :=
    (List.range window_size).map (fun (i : Nat) => (i : Int) + 1)
  let end_e : List Int := start_e.map (fun x => x + (window_size : Int))
  (start, end_s ++ end_e)

/-- Embedding of `VariableWindowIndexer._calculate_closed_bounds`: resolve the optional
`closed` string to the pair `(left_closed, right_closed)`.  `hasIndex` models
`self.index is not None`. -/
def VariableWindowIndexer._calculate_closed_bounds (hasIndex : Bool)
    (closed : Option String) : Bool × Bool :=
  let c := match closed with
    | none => if hasIndex then "right" else "both"
    | some s => s
  if c = "both" then (true, true)
  else if c = "right" then (false, true)
  else if c = "left" then (true, false)
  else (false, false)

/-- numpy integer indexing into the ordering key (`self.index[e]` where `e`
is an `int64` read back from the `end` array): a negative index wraps around
from the end, numpy style.  An access out of range on both sides would raise
IndexError in the source; it is modelled with default `0` and is unreachable
in the uses below. -/
def npIndexGet (index : List Int) (i : Int) : Int :=
  if i < 0 then index.getD ((index.length : Int) + i).toNat 0
  else index.getD i.toNat 0

/-- The inner scan of `VariableWindowIndexer.get_window_bounds`:

```
start[i] = i
for j in range(start[i - 1], i):
    if self.index[j] > start_bound:
        start[i] = j
        break
```

i.e. the first `j` in `[lo, i)` with `index[j] > start_bound`, and `i` when
there is none (`lo` is the previously stored `start[i-1]`). -/
def advanceStart (index : List Int) (start_bound : Int) (lo i : Nat) : Nat :=
  match (List.range' lo (i - lo)).find?
      (fun j => decide (start_bound < index.getD j 0)) with
  | some j => j
  | none => i

/-- The start bound computed in the loop body of
`VariableWindowIndexer.get_window_bounds`:

```
start_bound = self.index[i] - window_size
if left_closed:
    start_bound -= 1
``` -/
def varStartBound (index : List Int) (window_size : Int) (left_closed : Bool)
    (i : Nat) : Int :=
  let start_bound := index.getD i 0 - window_size
  if left_closed then start_bound - 1 else start_bound

/-- The `start` array of `VariableWindowIndexer.get_window_bounds` as a
recursion in the position: the loop body at position `i ≥ 1` reads only
`start[i-1]` (written in the previous iteration) and the key.
`start[0] = 0`; afterwards each entry is the `advanceStart` scan from the
previous entry with the `varStartBound` constraint. -/
def startIdx (index : List Int) (window_size : Int) (left_closed : Bool) :
    Nat → Nat
  | 0 => 0
  | i + 1 =>
    advanceStart index (varStartBound index window_size left_closed (i + 1))
      (startIdx index window_size left_closed i) (i + 1)

/-- The `end` array of `VariableWindowIndexer.get_window_bounds` as a
recursion in the position: the loop body at position `i ≥ 1` reads only
`end[i-1]` (the value stored in the previous iteration, open-endpoint
decrement included) and the key.

```
if right_closed: end[0] = 1
else: end[0] = 0
...
if self.index[end[i - 1]] <= end_bound:
    end[i] = i + 1
else:
    end[i] = end[i - 1]
if not right_closed:
    end[i] -= 1
``` -/
def endIdx (index : List Int) (right_closed : Bool) : Nat → Int
  | 0 => if right_closed then 1 else 0
  | i + 1 =>
    let end_bound := index.getD (i + 1) 0
    let e_prev := endIdx index right_closed i
    let e : Int := if npIndexGet index e_prev ≤ end_bound then (i + 1 : Nat) + 1 else e_prev
    if right_closed then e else e - 1

/-- Embedding of `VariableWindowIndexer.get_window_bounds`.  The ordering key `self.index`
has length `num_values = len(values)` (a documented precondition of the
caller), so the embedding takes the key and derives the length from it.  The
source allocates two `int64` arrays of size `num_values`, then executes
`start[0] = 0` unconditionally: for `num_values = 0` this raises IndexError
(assignment into an empty array), modelled as `none`.  Otherwise each loop
iteration `i` depends only on entry `i - 1` of each array, rendered by the
recursions `startIdx` and `endIdx`. -/
def VariableWindowIndexer.get_window_bounds (index : List Int)
    (window_size : Int) (closed : Option String) :
    Option (List Int × List Int) :=
  let lr := VariableWindowIndexer._calculate_closed_bounds true closed
  let num_values := index.length
  if num_values = 0 then none
  else
    some ((List.range num_values).map
            (fun i => (startIdx index window_size lr.1 i : Int)),
          (List.range num_values).map (fun i => endIdx index lr.2 i))

/-- The unchecked precondition of the variable-window scan: the ordering key
is monotonically non-decreasing. -/
def MonotoneKey (index : List Int) : Prop :=
  List.Chain' (· ≤ ·) index

/-! ### Helper lemmas on the inner scan -/

theorem find?_range'_some {p : Nat → Bool} :
    ∀ {n lo j : Nat}, (List.range' lo n).find? p = some j →
      lo ≤ j ∧ j < lo + n ∧ p j = true ∧ ∀ k, lo ≤ k → k < j → p k = false := by
  intro n
  induction n with
  | zero => intro lo j h; simp at h
  | succ n ih =>
    intro lo j h
    rw [List.range'_succ] at h
    by_cases hp : p lo
    · rw [List.find?_cons_of_pos _ hp] at h
      obtain rfl : lo = j := by simpa using h
      exact ⟨le_refl _, by omega, hp, fun k hk1 hk2 => absurd hk1 (by omega)⟩
    · rw [List.find?_cons_of_neg _ hp] at h
      obtain ⟨h1, h2, h3, h4⟩ := ih h
      refine ⟨by omega, by omega, h3, fun k hk1 hk2 => ?_⟩
      rcases Nat.eq_or_lt_of_le hk1 with rfl | hlt
      · simpa using hp
      · exact h4 k hlt hk2

theorem find?_range'_none {p : Nat → Bool} {n lo : Nat}
    (h : (List.range' lo n).find? p = none) :
    ∀ k, lo ≤ k → k < lo + n → p k = false := by
  intro k hk1 hk2
  rw [List.find?_eq_none] at h
  have hk : k ∈ List.range' lo n := by
    rw [List.mem_range']
    exact ⟨k - lo, by omega, by omega⟩
  simpa using h k hk

theorem advanceStart_le (index : List Int) (b : Int) (lo i : Nat) :
    advanceStart index b lo i ≤ i := by
  cases hf : (List.range' lo (i - lo)).find?
      (fun j => decide (b < index.getD j 0)) with
  | none =>
    have h2 : advanceStart index b lo i = i := by rw [advanceStart, hf]
    rw [h2]
  | some j =>
    have h2 : advanceStart index b lo i = j := by rw [advanceStart, hf]
    obtain ⟨h1, hlt, _, _⟩ := find?_range'_some hf
    omega

theorem le_advanceStart (index : List Int) (b : Int) {lo i : Nat} (h : lo ≤ i) :
    lo ≤ advanceStart index b lo i := by
  cases hf : (List.range' lo (i - lo)).find?
      (fun j => decide (b < index.getD j 0)) with
  | none =>
    have h2 : advanceStart index b lo i = i := by rw [advanceStart, hf]
    rw [h2]; exact h
  | some j =>
    have h2 : advanceStart index b lo i = j := by rw [advanceStart, hf]
    obtain ⟨h1, _, _, _⟩ := find?_range'_some hf
    rw [h2]; exact h1

theorem advanceStart_le_of_mem (index : List Int) {b : Int} {lo i j : Nat}
    (hlo : lo ≤ j) (hj : j < i) (hb : b < index.getD j 0) :
    advanceStart index b lo i ≤ j := by
  cases hf : (List.range' lo (i - lo)).find?
      (fun j => decide (b < index.getD j 0)) with
  | none =>
    have hfalse := find?_range'_none hf j hlo (by omega)
    simp only [decide_eq_false_iff_not] at hfalse
    exact absurd hb hfalse
  | some j' =>
    have h2 : advanceStart index b lo i = j' := by rw [advanceStart, hf]
    obtain ⟨h1, hlt, hp, h4⟩ := find?_range'_some hf
    rw [h2]
    by_contra hcon
    push_neg at hcon
    have hfalse := h4 j hlo hcon
    simp only [decide_eq_false_iff_not] at hfalse
    exact absurd hb hfalse

theorem advanceStart_mono (index : List Int) {b1 b2 : Int} {lo1 lo2 : Nat}
    (i : Nat) (hb : b1 ≤ b2) (hlo : lo1 ≤ lo2) :
    advanceStart index b1 lo1 i ≤ advanceStart index b2 lo2 i := by
  cases hf : (List.range' lo2 (i - lo2)).find?
      (fun j => decide (b2 < index.getD j 0)) with
  | none =>
    have h2 : advanceStart index b2 lo2 i = i := by rw [advanceStart, hf]
    rw [h2]
    exact advanceStart_le index b1 lo1 i
  | some j =>
    have h2 : advanceStart index b2 lo2 i = j := by rw [advanceStart, hf]
    obtain ⟨ha, hb2, hp, _⟩ := find?_range'_some hf
    rw [h2]
    have hpj : b1 < index.getD j 0 := lt_of_le_of_lt hb (by simpa using hp)
    exact advanceStart_le_of_mem index (le_trans hlo ha) (by omega) hpj

/-! ### Properties of the start recursion -/

theorem startIdx_le (index : List Int) (ws : Int) (lc : Bool) (i : Nat) :
    startIdx index ws lc i ≤ i := by
  cases i with
  | zero => exact le_refl 0
  | succ n =>
    simp only [startIdx]
    exact advanceStart_le index _ _ (n + 1)

theorem startIdx_mono_succ (index : List Int) (ws : Int) (lc : Bool) (i : Nat) :
    startIdx index ws lc i ≤ startIdx index ws lc (i + 1) := by
  simp only [startIdx]
  exact le_advanceStart index _ (Nat.le_succ_of_le (startIdx_le index ws lc i))

theorem startIdx_mono (index : List Int) (ws : Int) (lc : Bool) {i j : Nat}
    (h : i ≤ j) : startIdx index ws lc i ≤ startIdx index ws lc j := by
  induction h with
  | refl => exact le_refl _
  | step h ih => exact le_trans ih (startIdx_mono_succ index ws lc _)

theorem varStartBound_le (index : List Int) (ws : Int) (i : Nat) :
    varStartBound index ws true i ≤ varStartBound index ws false i := by
  have h1 : varStartBound index ws true i = index.getD i 0 - ws - 1 := rfl
  have h2 : varStartBound index ws false i = index.getD i 0 - ws := rfl
  omega

theorem startIdx_left_closed_le (index : List Int) (ws : Int) (i : Nat) :
    startIdx index ws true i ≤ startIdx index ws false i := by
  induction i with
  | zero => exact le_refl 0
  | succ n ih =>
    simp only [startIdx]
    exact advanceStart_mono index (n + 1) (varStartBound_le index ws (n + 1)) ih

/-! ### Properties of the end recursion under the monotone-key precondition -/

theorem MonotoneKey.getD_le {index : List Int} (h : MonotoneKey index)
    {i j : Nat} (hij : i ≤ j) (hj : j < index.length) :
    index.getD i 0 ≤ index.getD j 0 := by
  rcases Nat.eq_or_lt_of_le hij with rfl | hlt
  · exact le_refl _
  · have hi : i < index.length := by omega
    have hp : List.Pairwise (· ≤ ·) index := List.chain'_iff_pairwise.mp h
    rw [List.pairwise_iff_getElem] at hp
    have hle := hp i j hi hj hlt
    rw [List.getD_eq_getElem?_getD, List.getD_eq_getElem?_getD,
        List.getElem?_eq_getElem hi, List.getElem?_eq_getElem hj]
    simpa using hle

theorem endIdx_eq_of_monotone {index : List Int} (h : MonotoneKey index) :
    ∀ i, i < index.length →
      endIdx index true i = (i : Int) + 1 ∧ endIdx index false i = (i : Int) := by
  intro i
  induction i with
  | zero => intro _; exact ⟨rfl, rfl⟩
  | succ n ih =>
    intro hlen
    obtain ⟨hc, ho⟩ := ih (by omega)
    constructor
    · simp only [endIdx, hc]
      have hnp : npIndexGet index ((n : Int) + 1) = index.getD (n + 1) 0 := by
        rw [npIndexGet, if_neg (by omega)]
        norm_num
      rw [hnp, if_pos (le_refl _)]
      norm_num
    · simp only [endIdx, ho]
      have hnp : npIndexGet index (n : Int) = index.getD n 0 := by
        rw [npIndexGet, if_neg (by omega)]
        norm_num
      have hle : index.getD n 0 ≤ index.getD (n + 1) 0 :=
        h.getD_le (Nat.le_succ n) hlen
      rw [hnp, if_pos hle]
      norm_num

/-- The hold branch `end[i] = end[i-1]` is never taken under the monotone-key
precondition: the branch condition `self.index[end[i-1]] <= end_bound` always
holds. -/
theorem hold_branch_condition_of_monotone {index : List Int}
    (h : MonotoneKey index) (rc : Bool) {i : Nat} (hlen : i + 1 < index.length) :
    npIndexGet index (endIdx index rc i) ≤ index.getD (i + 1) 0 := by
  obtain ⟨hc, ho⟩ := endIdx_eq_of_monotone h i (by omega)
  cases rc with
  | true =>
    rw [hc]
    have hnp : npIndexGet index ((i : Int) + 1) = index.getD (i + 1) 0 := by
      rw [npIndexGet, if_neg (by omega)]
      norm_num
    rw [hnp]
  | false =>
    rw [ho]
    have hnp : npIndexGet index (i : Int) = index.getD i 0 := by
      rw [npIndexGet, if_neg (by omega)]
      norm_num
    rw [hnp]
    exact h.getD_le (Nat.le_succ i) hlen

/-! ### Access lemmas for the produced arrays -/

theorem getD_map_range {α : Type} (f : Nat → α) (d : α) {n i : Nat} (h : i < n) :
    (((List.range n).map f).getD i d) = f i := by
  rw [List.getD_eq_getElem?_getD, List.getElem?_eq_getElem (by simpa using h)]
  simp

theorem fixed_lengths (num_values window_size : Nat) :
    (FixedWindowIndexer.get_window_bounds num_values window_size).1.length =
        max window_size num_values ∧
      (FixedWindowIndexer.get_window_bounds num_values window_size).2.length =
        max window_size num_values := by
  constructor <;>
    simp only [FixedWindowIndexer.get_window_bounds, List.length_append,
      List.length_replicate, List.length_map, List.length_range',
      List.length_range] <;> omega

theorem fixed_start_getD (num_values window_size : Nat) {i : Nat}
    (h : i < max window_size num_values) :
    (FixedWindowIndexer.get_window_bounds num_values window_size).1.getD i 0 =
      if i < window_size then 0 else (i : Int) - (window_size : Int) + 1 := by
  have hlen : i < (FixedWindowIndexer.get_window_bounds num_values window_size).1.length := by
    rw [(fixed_lengths num_values window_size).1]; exact h
  rw [List.getD_eq_getElem?_getD, List.getElem?_eq_getElem hlen, Option.getD_some]
  simp only [FixedWindowIndexer.get_window_bounds] at hlen ⊢
  rw [List.getElem_append]
  by_cases hi : i < window_size
  · rw [dif_pos (by simpa using hi)]
    simp [hi]
  · rw [dif_neg (by simpa using hi)]
    simp only [List.length_replicate, List.getElem_map, List.getElem_range']
    rw [if_neg hi]
    push_cast
    omega

theorem fixed_end_getD (num_values window_size : Nat) {i : Nat}
    (h : i < max window_size num_values) :
    (FixedWindowIndexer.get_window_bounds num_values window_size).2.getD i 0 =
      (i : Int) + 1 := by
  have hlen : i < (FixedWindowIndexer.get_window_bounds num_values window_size).2.length := by
    rw [(fixed_lengths num_values window_size).2]; exact h
  rw [List.getD_eq_getElem?_getD, List.getElem?_eq_getElem hlen, Option.getD_some]
  simp only [FixedWindowIndexer.get_window_bounds] at hlen ⊢
  rw [List.getElem_append]
  by_cases hi : i < window_size
  · rw [dif_pos (by simpa using hi)]
    simp
  · rw [dif_neg (by simpa using hi)]
    simp only [List.length_map, List.length_range, List.getElem_map,
      List.getElem_range']
    push_cast
    omega

theorem variable_bounds_eq {index : List Int} {ws : Int} {closed : Option String}
    {s e : List Int}
    (h : VariableWindowIndexer.get_window_bounds index ws closed = some (s, e)) :
    index.length ≠ 0 ∧
      s = (List.range index.length).map
        (fun i =>
          (startIdx index ws
              (VariableWindowIndexer._calculate_closed_bounds true closed).1 i : Int)) ∧
      e = (List.range index.length).map
        (fun i =>
          endIdx index
            (VariableWindowIndexer._calculate_closed_bounds true closed).2 i) := by
  rw [VariableWindowIndexer.get_window_bounds] at h
  by_cases h0 : index.length = 0
  · rw [if_pos h0] at h
    exact absurd h (by simp)
  · rw [if_neg h0] at h
    rw [Option.some_inj] at h
    exact ⟨h0, (Prod.ext_iff.mp h.symm).1, (Prod.ext_iff.mp h.symm).2⟩

theorem variable_lengths {index : List Int} {ws : Int} {closed : Option String}
    {s e : List Int}
    (h : VariableWindowIndexer.get_window_bounds index ws closed = some (s, e)) :
    s.length = index.length ∧ e.length = index.length := by
  obtain ⟨-, hs, he⟩ := variable_bounds_eq h
  subst hs he
  simp

theorem variable_getD {index : List Int} {ws : Int} {closed : Option String}
    {s e : List Int}
    (h : VariableWindowIndexer.get_window_bounds index ws closed = some (s, e))
    {i : Nat} (hi : i < index.length) :
    s.getD i 0 =
        (startIdx index ws
            (VariableWindowIndexer._calculate_closed_bounds true closed).1 i : Int) ∧
      e.getD i 0 =
        endIdx index (VariableWindowIndexer._calculate_closed_bounds true closed).2 i := by
  obtain ⟨-, hs, he⟩ := variable_bounds_eq h
  subst hs he
  exact ⟨getD_map_range _ _ hi, getD_map_range _ _ hi⟩

/-! ### Claims -/

/-- Claim C1, counterexample: on the fixed strategy with sequence length 2 and
`window_size = 3` the returned arrays have length 3, not the sequence
length 2, refuting "the returned start and end arrays both have length equal
to the sequence length". -/
theorem C1_counterexample :
    ¬((FixedWindowIndexer.get_window_bounds 2 3).1.length = 2 ∧
      (FixedWindowIndexer.get_window_bounds 2 3).2.length = 2) := by decide

/-- Claim C1, amended: for the fixed strategy the guarantee holds whenever
`window_size ≤ num_values` (otherwise the arrays are padded to length
`window_size`); for the variable strategy it holds whenever a result is
returned: both arrays have the sequence length and every entry satisfies
`0 ≤ start[i] ≤ end[i] ≤ sequence length`. -/
theorem C1_amended_bounds (num_values window_size : Nat) (index : List Int)
    (ws : Int) (closed : Option String) (s e : List Int) (i k : Nat)
    (hmono : MonotoneKey index) (hws : 0 ≤ ws)
    (h : VariableWindowIndexer.get_window_bounds index ws closed = some (s, e))
    (hwn : window_size ≤ num_values) (hi : i < num_values)
    (hk : k < index.length) :
    ((FixedWindowIndexer.get_window_bounds num_values window_size).1.length =
        num_values ∧
      (FixedWindowIndexer.get_window_bounds num_values window_size).2.length =
        num_values ∧
      0 ≤ (FixedWindowIndexer.get_window_bounds num_values window_size).1.getD i 0 ∧
      (FixedWindowIndexer.get_window_bounds num_values window_size).1.getD i 0 ≤
        (FixedWindowIndexer.get_window_bounds num_values window_size).2.getD i 0 ∧
      (FixedWindowIndexer.get_window_bounds num_values window_size).2.getD i 0 ≤
        (num_values : Int)) ∧
      (s.length = index.length ∧ e.length = index.length ∧
        0 ≤ s.getD k 0 ∧ s.getD k 0 ≤ e.getD k 0 ∧
        e.getD k 0 ≤ (index.length : Int)) := by
  have hmax : i < max window_size num_values := by omega
  constructor
  · refine ⟨by rw [(fixed_lengths _ _).1]; omega,
      by rw [(fixed_lengths _ _).2]; omega, ?_, ?_, ?_⟩
    · rw [fixed_start_getD _ _ hmax]
      by_cases hiw : i < window_size
      · rw [if_pos hiw]
      · rw [if_neg hiw]; omega
    · rw [fixed_start_getD _ _ hmax, fixed_end_getD _ _ hmax]
      by_cases hiw : i < window_size
      · rw [if_pos hiw]; omega
      · rw [if_neg hiw]; omega
    · rw [fixed_end_getD _ _ hmax]; omega
  · obtain ⟨hsg, heg⟩ := variable_getD h hk
    obtain ⟨hsl, hel⟩ := variable_lengths h
    have hstart := startIdx_le index ws
      (VariableWindowIndexer._calculate_closed_bounds true closed).1 k
    obtain ⟨hec, heo⟩ := endIdx_eq_of_monotone hmono k hk
    refine ⟨hsl, hel, ?_, ?_, ?_⟩
    · rw [hsg]; omega
    · rw [hsg, heg]
      cases hrc : (VariableWindowIndexer._calculate_closed_bounds true closed).2 with
      | false => rw [heo]; omega
      | true => rw [hec]; omega
    · rw [heg]
      cases hrc : (VariableWindowIndexer._calculate_closed_bounds true closed).2 with
      | false => rw [heo]; omega
      | true => rw [hec]; omega

/-- Witness for `C1_amended_bounds` at `num_values = 5`, `window_size = 3`,
key `[1, 2, 3]`, `window_size = 2`, default closed policy, positions `i = 4`
and `k = 2`. -/
theorem C1_amended_bounds_witness :
    ((FixedWindowIndexer.get_window_bounds 5 3).1.length = 5 ∧
      (FixedWindowIndexer.get_window_bounds 5 3).2.length = 5 ∧
      0 ≤ (FixedWindowIndexer.get_window_bounds 5 3).1.getD 4 0 ∧
      (FixedWindowIndexer.get_window_bounds 5 3).1.getD 4 0 ≤
        (FixedWindowIndexer.get_window_bounds 5 3).2.getD 4 0 ∧
      (FixedWindowIndexer.get_window_bounds 5 3).2.getD 4 0 ≤ (5 : Int)) ∧
      (([0, 0, 1] : List Int).length = ([1, 2, 3] : List Int).length ∧
        ([1, 2, 3] : List Int).length = ([1, 2, 3] : List Int).length ∧
        0 ≤ ([0, 0, 1] : List Int).getD 2 0 ∧
        ([0, 0, 1] : List Int).getD 2 0 ≤ ([1, 2, 3] : List Int).getD 2 0 ∧
        ([1, 2, 3] : List Int).getD 2 0 ≤ (([1, 2, 3] : List Int).length : Int)) :=
  C1_amended_bounds 5 3 [1, 2, 3] 2 none [0, 0, 1] [1, 2, 3] 4 2
    (by simp [MonotoneKey]) (by decide) (by decide) (by decide) (by decide)
    (by decide)

/-- Claim C2 (code bug): at sequence length zero the variable strategy does
not return empty arrays — the unconditional `start[0] = 0` store raises
IndexError on a size-0 array (modelled as `none`) — and the fixed strategy
returns arrays of length `window_size`, non-empty for a positive window
size. -/
theorem C2_zero_length_divergence :
    (∀ (ws : Int) (closed : Option String),
        VariableWindowIndexer.get_window_bounds [] ws closed = none) ∧
      FixedWindowIndexer.get_window_bounds 0 1 = ([0], [1]) :=
  ⟨fun _ _ => rfl, by decide⟩

/-- Claim C3: for the fixed strategy and every position `i < num_values`,
`start[i] = 0` when `i < window_size` and `i - window_size + 1` otherwise,
while `end[i] = i + 1`; in particular `window_size = 3`, sequence length 5
gives `start = [0,0,0,1,2]`, `end = [1,2,3,4,5]`. -/
theorem C3_fixed_formula (num_values window_size i : Nat) (hi : i < num_values) :
    ((FixedWindowIndexer.get_window_bounds num_values window_size).1.getD i 0 =
        if i < window_size then 0 else (i : Int) - (window_size : Int) + 1) ∧
      (FixedWindowIndexer.get_window_bounds num_values window_size).2.getD i 0 =
        (i : Int) + 1 ∧
      FixedWindowIndexer.get_window_bounds 5 3 =
        ([0, 0, 0, 1, 2], [1, 2, 3, 4, 5]) := by
  have hmax : i < max window_size num_values := by omega
  exact ⟨fixed_start_getD num_values window_size hmax,
    fixed_end_getD num_values window_size hmax, by decide⟩

/-- Witness for `C3_fixed_formula` at `num_values = 5`, `window_size = 3`,
`i = 4`. -/
theorem C3_fixed_formula_witness :
    ((FixedWindowIndexer.get_window_bounds 5 3).1.getD 4 0 =
        if 4 < 3 then 0 else (4 : Int) - (3 : Int) + 1) ∧
      (FixedWindowIndexer.get_window_bounds 5 3).2.getD 4 0 = (4 : Int) + 1 ∧
      FixedWindowIndexer.get_window_bounds 5 3 =
        ([0, 0, 0, 1, 2], [1, 2, 3, 4, 5]) :=
  C3_fixed_formula 5 3 4 (by decide)

/-- Claim C6: the closed-policy resolution defaults to right when an ordering
key is present and to both otherwise, and maps both ↦ (true, true),
right ↦ (false, true), left ↦ (true, false), neither ↦ (false, false). -/
theorem C6_closed_resolution :
    VariableWindowIndexer._calculate_closed_bounds true none = (false, true) ∧
      VariableWindowIndexer._calculate_closed_bounds false none = (true, true) ∧
      ∀ hasIndex : Bool,
        VariableWindowIndexer._calculate_closed_bounds hasIndex (some "both") =
            (true, true) ∧
          VariableWindowIndexer._calculate_closed_bounds hasIndex (some "right") =
            (false, true) ∧
          VariableWindowIndexer._calculate_closed_bounds hasIndex (some "left") =
            (true, false) ∧
          VariableWindowIndexer._calculate_closed_bounds hasIndex (some "neither") =
            (false, false) := by
  refine ⟨by decide, by decide, fun hasIndex => ?_⟩
  cases hasIndex <;> exact ⟨by decide, by decide, by decide, by decide⟩

/-- Claim C8: fixed-strategy arrays have length `max window_size num_values`;
when `window_size > num_values` they are longer than the sequence, and every
extra end entry equals `i + 1`, exceeding `num_values` and bounded by
`window_size`. -/
theorem C8_fixed_padding (num_values window_size : Nat) :
    (FixedWindowIndexer.get_window_bounds num_values window_size).1.length =
        max window_size num_values ∧
      (FixedWindowIndexer.get_window_bounds num_values window_size).2.length =
        max window_size num_values ∧
      (num_values < window_size → ∀ i, num_values ≤ i → i < window_size →
        (FixedWindowIndexer.get_window_bounds num_values window_size).2.getD i 0 =
            (i : Int) + 1 ∧
          (num_values : Int) <
            (FixedWindowIndexer.get_window_bounds num_values window_size).2.getD i 0 ∧
          (FixedWindowIndexer.get_window_bounds num_values window_size).2.getD i 0 ≤
            (window_size : Int)) := by
  refine ⟨(fixed_lengths _ _).1, (fixed_lengths _ _).2, ?_⟩
  intro _ i hni hiw
  have hmax : i < max window_size num_values := by omega
  rw [fixed_end_getD num_values window_size hmax]
  exact ⟨rfl, by omega, by omega⟩

/-- Witness for `C8_fixed_padding` at `num_values = 2`, `window_size = 3`. -/
theorem C8_fixed_padding_witness :
    (FixedWindowIndexer.get_window_bounds 2 3).1.length = max 3 2 ∧
      (FixedWindowIndexer.get_window_bounds 2 3).2.length = max 3 2 ∧
      (2 < 3 → ∀ i, 2 ≤ i → i < 3 →
        (FixedWindowIndexer.get_window_bounds 2 3).2.getD i 0 = (i : Int) + 1 ∧
          (2 : Int) < (FixedWindowIndexer.get_window_bounds 2 3).2.getD i 0 ∧
          (FixedWindowIndexer.get_window_bounds 2 3).2.getD i 0 ≤ (3 : Int)) :=
  C8_fixed_padding 2 3

/-- Claim C9: with `window_size = 0` every fixed-strategy window is empty:
`end[i] = start[i]` at every output position. -/
theorem C9_fixed_zero_window (num_values i : Nat) (hi : i < num_values) :
    (FixedWindowIndexer.get_window_bounds num_values 0).2.getD i 0 =
      (FixedWindowIndexer.get_window_bounds num_values 0).1.getD i 0 := by
  have hmax : i < max 0 num_values := by omega
  rw [fixed_end_getD num_values 0 hmax, fixed_start_getD num_values 0 hmax,
    if_neg (by omega)]
  omega

/-- Witness for `C9_fixed_zero_window` at `num_values = 5`, `i = 2`. -/
theorem C9_fixed_zero_window_witness :
    (FixedWindowIndexer.get_window_bounds 5 0).2.getD 2 0 =
      (FixedWindowIndexer.get_window_bounds 5 0).1.getD 2 0 :=
  C9_fixed_zero_window 5 2 (by decide)

/-- Claim C5: for the variable strategy with a monotone non-decreasing key and
non-negative window size, both returned arrays are non-decreasing. -/
theorem C5_variable_monotone (index : List Int) (ws : Int)
    (closed : Option String) (s e : List Int) (i j : Nat)
    (hmono : MonotoneKey index) (hws : 0 ≤ ws)
    (h : VariableWindowIndexer.get_window_bounds index ws closed = some (s, e))
    (hij : i < j) (hj : j < index.length) :
    s.getD i 0 ≤ s.getD j 0 ∧ e.getD i 0 ≤ e.getD j 0 := by
  have hi : i < index.length := by omega
  obtain ⟨hsi, hei⟩ := variable_getD h hi
  obtain ⟨hsj, hej⟩ := variable_getD h hj
  constructor
  · rw [hsi, hsj]
    have := startIdx_mono index ws
      (VariableWindowIndexer._calculate_closed_bounds true closed).1
      (le_of_lt hij)
    omega
  · rw [hei, hej]
    obtain ⟨hci, hoi⟩ := endIdx_eq_of_monotone hmono i hi
    obtain ⟨hcj, hoj⟩ := endIdx_eq_of_monotone hmono j hj
    cases hrc : (VariableWindowIndexer._calculate_closed_bounds true closed).2 with
    | false => rw [hoi, hoj]; omega
    | true => rw [hci, hcj]; omega

/-- Witness for `C5_variable_monotone` on key `[1, 2, 3, 10, 11]`,
`window_size = 2`, closed right, positions `i = 1 < j = 3`. -/
theorem C5_variable_monotone_witness :
    ([0, 0, 1, 3, 3] : List Int).getD 1 0 ≤ ([0, 0, 1, 3, 3] : List Int).getD 3 0 ∧
      ([1, 2, 3, 4, 5] : List Int).getD 1 0 ≤ ([1, 2, 3, 4, 5] : List Int).getD 3 0 :=
  C5_variable_monotone [1, 2, 3, 10, 11] 2 (some "right") [0, 0, 1, 3, 3]
    [1, 2, 3, 4, 5] 1 3 (by simp [MonotoneKey]) (by decide) (by decide)
    (by decide) (by decide)

/-- Claim C7: for the variable strategy with a monotone key the end array is
independent of the key values — `end[i] = i + 1` when the right endpoint is
closed and `end[i] = i` when it is open — and the hold branch is never taken:
the branch condition `self.index[end[i-1]] <= end_bound` holds at every
step. -/
theorem C7_variable_end_deterministic (index : List Int) (ws : Int)
    (closed : Option String) (s e : List Int)
    (hmono : MonotoneKey index)
    (h : VariableWindowIndexer.get_window_bounds index ws closed = some (s, e)) :
    (∀ i, i < index.length →
        e.getD i 0 =
          if (VariableWindowIndexer._calculate_closed_bounds true closed).2 then
            (i : Int) + 1
          else (i : Int)) ∧
      ∀ i, i + 1 < index.length →
        npIndexGet index
            (endIdx index
              (VariableWindowIndexer._calculate_closed_bounds true closed).2 i) ≤
          index.getD (i + 1) 0 := by
  constructor
  · intro i hi
    obtain ⟨-, hei⟩ := variable_getD h hi
    rw [hei]
    obtain ⟨hc, ho⟩ := endIdx_eq_of_monotone hmono i hi
    cases hrc : (VariableWindowIndexer._calculate_closed_bounds true closed).2 with
    | false => rw [ho, if_neg (by simp)]
    | true => rw [hc, if_pos rfl]
  · intro i hi
    exact hold_branch_condition_of_monotone hmono _ hi

/-- Witness for `C7_variable_end_deterministic` on key `[1, 2, 3, 10, 11]`,
`window_size = 2`, closed right. -/
theorem C7_variable_end_deterministic_witness :
    (∀ i, i < ([1, 2, 3, 10, 11] : List Int).length →
        ([1, 2, 3, 4, 5] : List Int).getD i 0 =
          if (VariableWindowIndexer._calculate_closed_bounds true
                (some "right")).2 then
            (i : Int) + 1
          else (i : Int)) ∧
      ∀ i, i + 1 < ([1, 2, 3, 10, 11] : List Int).length →
        npIndexGet [1, 2, 3, 10, 11]
            (endIdx [1, 2, 3, 10, 11]
              (VariableWindowIndexer._calculate_closed_bounds true
                (some "right")).2 i) ≤
          ([1, 2, 3, 10, 11] : List Int).getD (i + 1) 0 :=
  C7_variable_end_deterministic [1, 2, 3, 10, 11] 2 (some "right")
    [0, 0, 1, 3, 3] [1, 2, 3, 4, 5] (by simp [MonotoneKey]) (by decide)

/-- Claim C4: for every position `i ≥ 1` of the variable strategy, with
start bound `key[i] - window_size` (one further unit down when the left
endpoint is closed), `start[i]` is the first `j` in `[start[i-1], i)` with
`key[j] > start_bound`, and is `i` when no such `j` exists; in particular for
`key = [1, 2, 3, 10, 11]`, `window_size = 2`, closed right, `start[3] = 3`. -/
theorem C4_variable_start_scan (index : List Int) (ws : Int)
    (closed : Option String) (s e : List Int) (i : Nat)
    (hmono : MonotoneKey index)
    (h : VariableWindowIndexer.get_window_bounds index ws closed = some (s, e))
    (h1 : 1 ≤ i) (hi : i < index.length) :
    (∃ j : Nat, s.getD i 0 = (j : Int) ∧
      ((j < i ∧ s.getD (i - 1) 0 ≤ (j : Int) ∧
          varStartBound index ws
              (VariableWindowIndexer._calculate_closed_bounds true closed).1 i <
            index.getD j 0 ∧
          ∀ k : Nat, s.getD (i - 1) 0 ≤ (k : Int) → k < j →
            index.getD k 0 ≤
              varStartBound index ws
                (VariableWindowIndexer._calculate_closed_bounds true closed).1 i) ∨
        (j = i ∧ ∀ k : Nat, s.getD (i - 1) 0 ≤ (k : Int) → k < i →
          index.getD k 0 ≤
            varStartBound index ws
              (VariableWindowIndexer._calculate_closed_bounds true closed).1 i))) ∧
      (VariableWindowIndexer.get_window_bounds [1, 2, 3, 10, 11] 2
          (some "right")).map (fun p => p.1.getD 3 0) = some 3 := by
  refine ⟨?_, by decide⟩
  obtain ⟨n, rfl⟩ : ∃ n, i = n + 1 := ⟨i - 1, by omega⟩
  set lc := (VariableWindowIndexer._calculate_closed_bounds true closed).1 with hlc
  obtain ⟨hsn1, -⟩ := variable_getD h hi
  obtain ⟨hsn, -⟩ := variable_getD h (show n < index.length by omega)
  have hpred : n + 1 - 1 = n := by omega
  rw [hpred, hsn1, hsn]
  have hunfold : startIdx index ws lc (n + 1) =
      advanceStart index (varStartBound index ws lc (n + 1))
        (startIdx index ws lc n) (n + 1) := by
    simp only [startIdx]
  set b := varStartBound index ws lc (n + 1) with hb
  set prev := startIdx index ws lc n with hprev
  have hprevle : prev ≤ n := startIdx_le index ws lc n
  cases hf : (List.range' prev (n + 1 - prev)).find?
      (fun j => decide (b < index.getD j 0)) with
  | some j =>
    have hadv : advanceStart index b prev (n + 1) = j := by rw [advanceStart, hf]
    obtain ⟨hj1, hj2, hj3, hj4⟩ := find?_range'_some hf
    refine ⟨j, by rw [hunfold, hadv],
      Or.inl ⟨by omega, by exact_mod_cast hj1, by simpa using hj3, ?_⟩⟩
    intro k hk1 hk2
    have hk1' : prev ≤ k := by exact_mod_cast hk1
    have hfk := hj4 k hk1' hk2
    simp only [decide_eq_false_iff_not, not_lt] at hfk
    exact hfk
  | none =>
    have hadv : advanceStart index b prev (n + 1) = n + 1 := by
      rw [advanceStart, hf]
    refine ⟨n + 1, by rw [hunfold, hadv], Or.inr ⟨rfl, ?_⟩⟩
    intro k hk1 hk2
    have hk1' : prev ≤ k := by exact_mod_cast hk1
    have hfk := find?_range'_none hf k hk1' (by omega)
    simp only [decide_eq_false_iff_not, not_lt] at hfk
    exact hfk

/-- Witness for `C4_variable_start_scan` on key `[1, 2, 3, 10, 11]`,
`window_size = 2`, closed right, position `i = 3`. -/
theorem C4_variable_start_scan_witness :
    (∃ j : Nat, ([0, 0, 1, 3, 3] : List Int).getD 3 0 = (j : Int) ∧
      ((j < 3 ∧ ([0, 0, 1, 3, 3] : List Int).getD (3 - 1) 0 ≤ (j : Int) ∧
          varStartBound [1, 2, 3, 10, 11] 2
              (VariableWindowIndexer._calculate_closed_bounds true
                (some "right")).1 3 <
            ([1, 2, 3, 10, 11] : List Int).getD j 0 ∧
          ∀ k : Nat,
            ([0, 0, 1, 3, 3] : List Int).getD (3 - 1) 0 ≤ (k : Int) → k < j →
            ([1, 2, 3, 10, 11] : List Int).getD k 0 ≤
              varStartBound [1, 2, 3, 10, 11] 2
                (VariableWindowIndexer._calculate_closed_bounds true
                  (some "right")).1 3) ∨
        (j = 3 ∧ ∀ k : Nat,
          ([0, 0, 1, 3, 3] : List Int).getD (3 - 1) 0 ≤ (k : Int) → k < 3 →
          ([1, 2, 3, 10, 11] : List Int).getD k 0 ≤
            varStartBound [1, 2, 3, 10, 11] 2
              (VariableWindowIndexer._calculate_closed_bounds true
                (some "right")).1 3))) ∧
      (VariableWindowIndexer.get_window_bounds [1, 2, 3, 10, 11] 2
          (some "right")).map (fun p => p.1.getD 3 0) = some 3 :=
  C4_variable_start_scan [1, 2, 3, 10, 11] 2 (some "right") [0, 0, 1, 3, 3]
    [1, 2, 3, 4, 5] 3 (by simp [MonotoneKey]) (by decide) (by decide) (by decide)

/-- Claim C10: on identical inputs, each window under policy `both` contains
every index of the window under `right` and of the window under `left`, and
each window under `right` (respectively `left`) contains every index of the
window under `neither`; the per-window point counts nest accordingly. -/
theorem C10_closed_policy_nesting (index : List Int) (ws : Int)
    (sB eB sR eR sL eL sN eN : List Int) (i : Nat)
    (hmono : MonotoneKey index) (hws : 0 ≤ ws)
    (hB : VariableWindowIndexer.get_window_bounds index ws (some "both") =
      some (sB, eB))
    (hR : VariableWindowIndexer.get_window_bounds index ws (some "right") =
      some (sR, eR))
    (hL : VariableWindowIndexer.get_window_bounds index ws (some "left") =
      some (sL, eL))
    (hN : VariableWindowIndexer.get_window_bounds index ws (some "neither") =
      some (sN, eN))
    (hi : i < index.length) :
    ((∀ j : Int, sR.getD i 0 ≤ j ∧ j < eR.getD i 0 →
        sB.getD i 0 ≤ j ∧ j < eB.getD i 0) ∧
      (∀ j : Int, sL.getD i 0 ≤ j ∧ j < eL.getD i 0 →
        sB.getD i 0 ≤ j ∧ j < eB.getD i 0) ∧
      (∀ j : Int, sN.getD i 0 ≤ j ∧ j < eN.getD i 0 →
        sR.getD i 0 ≤ j ∧ j < eR.getD i 0) ∧
      (∀ j : Int, sN.getD i 0 ≤ j ∧ j < eN.getD i 0 →
        sL.getD i 0 ≤ j ∧ j < eL.getD i 0)) ∧
      (eN.getD i 0 - sN.getD i 0 ≤ eR.getD i 0 - sR.getD i 0 ∧
        eR.getD i 0 - sR.getD i 0 ≤ eB.getD i 0 - sB.getD i 0 ∧
        eN.getD i 0 - sN.getD i 0 ≤ eL.getD i 0 - sL.getD i 0 ∧
        eL.getD i 0 - sL.getD i 0 ≤ eB.getD i 0 - sB.getD i 0) := by
  obtain ⟨hsB, heB⟩ := variable_getD hB hi
  obtain ⟨hsR, heR⟩ := variable_getD hR hi
  obtain ⟨hsL, heL⟩ := variable_getD hL hi
  obtain ⟨hsN, heN⟩ := variable_getD hN hi
  simp only [show VariableWindowIndexer._calculate_closed_bounds true
      (some "both") = (true, true) from by decide] at hsB heB
  simp only [show VariableWindowIndexer._calculate_closed_bounds true
      (some "right") = (false, true) from by decide] at hsR heR
  simp only [show VariableWindowIndexer._calculate_closed_bounds true
      (some "left") = (true, false) from by decide] at hsL heL
  simp only [show VariableWindowIndexer._calculate_closed_bounds true
      (some "neither") = (false, false) from by decide] at hsN heN
  obtain ⟨hec, heo⟩ := endIdx_eq_of_monotone hmono i hi
  rw [hsB, heB, hsR, heR, hsL, heL, hsN, heN, hec, heo]
  have hstart := startIdx_left_closed_le index ws i
  refine ⟨⟨fun j hj => ?_, fun j hj => ?_, fun j hj => ?_, fun j hj => ?_⟩, ?_⟩ <;>
    omega

/-- Witness for `C10_closed_policy_nesting` on key `[1, 2, 3]`,
`window_size = 2`, position `i = 2`, with the four strategies' outputs. -/
theorem C10_closed_policy_nesting_witness :
    ((∀ j : Int,
        ([0, 0, 1] : List Int).getD 2 0 ≤ j ∧ j < ([1, 2, 3] : List Int).getD 2 0 →
        ([0, 0, 0] : List Int).getD 2 0 ≤ j ∧ j < ([1, 2, 3] : List Int).getD 2 0) ∧
      (∀ j : Int,
        ([0, 0, 0] : List Int).getD 2 0 ≤ j ∧ j < ([0, 1, 2] : List Int).getD 2 0 →
        ([0, 0, 0] : List Int).getD 2 0 ≤ j ∧ j < ([1, 2, 3] : List Int).getD 2 0) ∧
      (∀ j : Int,
        ([0, 0, 1] : List Int).getD 2 0 ≤ j ∧ j < ([0, 1, 2] : List Int).getD 2 0 →
        ([0, 0, 1] : List Int).getD 2 0 ≤ j ∧ j < ([1, 2, 3] : List Int).getD 2 0) ∧
      (∀ j : Int,
        ([0, 0, 1] : List Int).getD 2 0 ≤ j ∧ j < ([0, 1, 2] : List Int).getD 2 0 →
        ([0, 0, 0] : List Int).getD 2 0 ≤ j ∧ j < ([0, 1, 2] : List Int).getD 2 0)) ∧
      (([0, 1, 2] : List Int).getD 2 0 - ([0, 0, 1] : List Int).getD 2 0 ≤
          ([1, 2, 3] : List Int).getD 2 0 - ([0, 0, 1] : List Int).getD 2 0 ∧
        ([1, 2, 3] : List Int).getD 2 0 - ([0, 0, 1] : List Int).getD 2 0 ≤
          ([1, 2, 3] : List Int).getD 2 0 - ([0, 0, 0] : List Int).getD 2 0 ∧
        ([0, 1, 2] : List Int).getD 2 0 - ([0, 0, 1] : List Int).getD 2 0 ≤
          ([0, 1, 2] : List Int).getD 2 0 - ([0, 0, 0] : List Int).getD 2 0 ∧
        ([0, 1, 2] : List Int).getD 2 0 - ([0, 0, 0] : List Int).getD 2 0 ≤
          ([1, 2, 3] : List Int).getD 2 0 - ([0, 0, 0] : List Int).getD 2 0) :=
  C10_closed_policy_nesting [1, 2, 3] 2 [0, 0, 0] [1, 2, 3] [0, 0, 1] [1, 2, 3]
    [0, 0, 0] [0, 1, 2] [0, 0, 1] [0, 1, 2] 2 (by simp [MonotoneKey])
    (by decide) (by decide) (by decide) (by decide) (by decide) (by decide)

end Indexers
